import Mathlib

/-!
Shallow embedding of the event-signup registration and tree-ordering core
(`models.go`, `handlers.go`).  Database tables become lists of records,
SQLite queries become list traversals, and the crypto-random token
generator (`GenerateToken`) becomes a fresh-counter supply carried in the
state: each generated token is the current value of `nextToken`, which is
then bumped, so generated tokens are pairwise distinct and distinct from
every earlier one — the model of "cryptographically random with negligible
collision probability".
-/

namespace EventSignup

/-- A row of the `tasks` table (the columns the core reads). -/
structure Task where
  id : Int
  eventID : Int
  groupID : Option Int
  maxSlots : Option Int
  position : Int
deriving DecidableEq, Repr

/-- A row of the `task_groups` table. -/
structure TaskGroup where
  id : Int
  eventID : Int
  parentGroupID : Option Int
  position : Int
deriving DecidableEq, Repr

/-- A row of the `registrations` table.  Tokens are modelled as naturals
drawn from the database's fresh-token counter. -/
structure Registration where
  id : Int
  taskID : Int
  firstName : String
  lastName : String
  email : String
  phone : String
  token : Nat
deriving DecidableEq, Repr

/-- The database state: the four tables (events reduced to their ids,
which is all the core consults) plus the AUTOINCREMENT row-id counter for
registrations and the fresh-token counter modelling `GenerateToken`. -/
structure DB where
  events : List Int
  groups : List TaskGroup
  tasks : List Task
  regs : List Registration
  nextGroupID : Int
  nextTaskID : Int
  nextRegID : Int
  nextToken : Nat
deriving DecidableEq, Repr

/-- `SELECT ... FROM tasks WHERE id=?` (`GetTask`). -/
def findTask (db : DB) (tid : Int) : Option Task :=
  db.tasks.find? (fun t => t.id == tid)

/-- `SELECT ... FROM task_groups WHERE id=?` (`GetTaskGroup`). -/
def findGroup (db : DB) (gid : Int) : Option TaskGroup :=
  db.groups.find? (fun g => g.id == gid)

/-- `SELECT COUNT(*) FROM registrations WHERE task_id=?`. -/
def countReg (db : DB) (tid : Int) : Nat :=
  (db.regs.filter (fun r => r.taskID == tid)).length

/-- SQLite's `LOWER` folds ASCII letters only. -/
def asciiLower (c : Char) : Char :=
  if 'A' ≤ c ∧ c ≤ 'Z' then Char.ofNat (c.toNat + 32) else c

/-- ASCII lower-casing of a string, as SQLite's `LOWER(?)`. -/
def lowerStr (s : String) : String :=
  String.mk (s.data.map asciiLower)

/-- `GetRegistrationByToken`: `SELECT ... FROM registrations WHERE token=?`. -/
def GetRegistrationByToken (db : DB) (token : Nat) : Option Registration :=
  db.regs.find? (fun r => r.token == token)

/-- `GetRegistrationByEmailAndEvent`: join through `tasks`, case-insensitive
match on email, scoped to the event. -/
def GetRegistrationByEmailAndEvent (db : DB) (email : String) (eventID : Int) :
    Option Registration :=
  db.regs.find? (fun r =>
    match findTask db r.taskID with
    | some t => lowerStr r.email == lowerStr email && t.eventID == eventID
    | none => false)

/-- The two expected error outcomes of `RegisterForTask`
(`"task not found"` and `"task_full"`). -/
inductive RegError where
  | taskNotFound
  | taskFull
deriving DecidableEq, Repr

/-- The row `RegisterForTask` inserts: fresh AUTOINCREMENT id, the caller's
fields, and a freshly generated token. -/
def newReg (db : DB) (taskID : Int) (firstName lastName email phone : String) : Registration :=
  { id := db.nextRegID, taskID := taskID, firstName := firstName,
    lastName := lastName, email := email, phone := phone, token := db.nextToken }

/-- The insert step of `RegisterForTask`: generate a token, insert the row,
commit.  The registration id is SQLite's AUTOINCREMENT `LastInsertId`. -/
def registerInsert (db : DB) (taskID : Int) (firstName lastName email phone : String) :
    Except RegError Registration × DB :=
  let reg := newReg db taskID firstName lastName email phone
  (.ok reg,
   { db with regs := db.regs ++ [reg],
             nextRegID := db.nextRegID + 1,
             nextToken := db.nextToken + 1 })

/-- `RegisterForTask` (models.go): inside one transaction, read the task's
`max_slots`; if present, count the live registrations and reject with
`task_full` when the count has reached the limit; otherwise insert the new
row.  On an error the transaction rolls back, so the state is returned
unchanged. -/
def RegisterForTask (db : DB) (taskID : Int) (firstName lastName email phone : String) :
    Except RegError Registration × DB :=
  match findTask db taskID with
  | none => (.error .taskNotFound, db)
  | some t =>
    match t.maxSlots with
    | some m =>
      if (countReg db taskID : Int) ≥ m then (.error .taskFull, db)
      else registerInsert db taskID firstName lastName email phone
    | none => registerInsert db taskID firstName lastName email phone

/-- `DeleteRegistrationByToken`: `DELETE FROM registrations WHERE token=?`. -/
def DeleteRegistrationByToken (db : DB) (token : Nat) : DB :=
  { db with regs := db.regs.filter (fun r => !(r.token == token)) }

/-- The outcomes `handlePublicSignup` can render. -/
inductive SignupResult where
  | invalidForm
  | notFoundPage
  | sameTask (r : Registration)
  | alreadyRegistered (r : Registration)
  | taskFull
  | serverError
  | registered (r : Registration)
deriving DecidableEq, Repr

/-- The tail of `handlePublicSignup`: call `RegisterForTask` and map its
outcome onto the rendered page. -/
def finishRegister (db : DB) (taskID : Int) (fn ln em ph : String) : SignupResult × DB :=
  match RegisterForTask db taskID fn ln em ph with
  | (.ok reg, db1) => (.registered reg, db1)
  | (.error .taskFull, db1) => (.taskFull, db1)
  | (.error .taskNotFound, db1) => (.serverError, db1)

/-- `handlePublicSignup` (handlers.go): resolve the task and its event,
validate the (already whitespace-trimmed) form fields, then either the
change-token path (same task → no mutation; different task → delete the
old row, then admit), or the duplicate-email check, or a plain admission.
An empty `cancel_token` form value is `none`. -/
def handlePublicSignup (db : DB) (taskID : Int) (fn ln em ph : String)
    (cancelToken : Option Nat) : SignupResult × DB :=
  match findTask db taskID with
  | none => (.notFoundPage, db)
  | some task =>
    if task.eventID ∈ db.events then
      if fn = "" ∨ ln = "" ∨ em = "" ∨ ph = "" then (.invalidForm, db)
      else
        match cancelToken with
        | some tok =>
          match GetRegistrationByToken db tok with
          | some existing =>
            if existing.taskID = taskID then (.sameTask existing, db)
            else finishRegister (DeleteRegistrationByToken db tok) taskID fn ln em ph
          | none => finishRegister db taskID fn ln em ph
        | none =>
          match GetRegistrationByEmailAndEvent db em task.eventID with
          | some existing => (.alreadyRegistered existing, db)
          | none => finishRegister db taskID fn ln em ph
    else (.notFoundPage, db)

/-- The POST branch of `handlePublicCancel`: delete by token when the token
resolves, otherwise render not-found and change nothing. -/
def handlePublicCancel (db : DB) (token : Nat) : DB :=
  match GetRegistrationByToken db token with
  | some _ => DeleteRegistrationByToken db token
  | none => db

/-- The operations of the public registration flow plus direct `Admit`. -/
inductive Op where
  | admitOp (taskID : Int) (fn ln em ph : String)
  | signup (taskID : Int) (fn ln em ph : String) (cancelToken : Option Nat)
  | cancel (token : Nat)

/-- State transition of one operation (responses discarded). -/
def step (db : DB) : Op → DB
  | .admitOp tid fn ln em ph => (RegisterForTask db tid fn ln em ph).2
  | .signup tid fn ln em ph ct => (handlePublicSignup db tid fn ln em ph ct).2
  | .cancel tok => handlePublicCancel db tok

/-- Run a sequence of operations. -/
def run (db : DB) (ops : List Op) : DB := ops.foldl step db

/-- `COALESCE(MAX(position), -1)` over a list of sibling positions. -/
def maxPosOr (l : List Int) : Int :=
  match l with
  | [] => -1
  | x :: xs => xs.foldl max x

/-- Positions of the group rows at a parent within an event
(`SELECT COALESCE(MAX(position), -1) FROM task_groups WHERE event_id=? AND
parent_group_id=?` and the `IS NULL` variant are one filter here). -/
def siblingGroupPositions (db : DB) (eventID : Int) (parent : Option Int) : List Int :=
  (db.groups.filter (fun g => g.eventID == eventID && g.parentGroupID == parent)).map
    (fun g => g.position)

/-- Positions of the task rows at a parent within an event. -/
def siblingTaskPositions (db : DB) (eventID : Int) (parent : Option Int) : List Int :=
  (db.tasks.filter (fun t => t.eventID == eventID && t.groupID == parent)).map
    (fun t => t.position)

/-- `CreateTaskGroup`: auto-assign the position one past the maximum among
direct siblings of either kind, then insert; the id is `LastInsertId`. -/
def CreateTaskGroup (db : DB) (eventID : Int) (parent : Option Int) : DB × TaskGroup :=
  let maxPos := maxPosOr (siblingGroupPositions db eventID parent)
  let maxTask := maxPosOr (siblingTaskPositions db eventID parent)
  let best := if maxTask > maxPos then maxTask else maxPos
  let g : TaskGroup :=
    { id := db.nextGroupID, eventID := eventID, parentGroupID := parent, position := best + 1 }
  ({ db with groups := db.groups ++ [g], nextGroupID := db.nextGroupID + 1 }, g)

/-- `CreateTask`: same position rule with the two sibling kinds swapped. -/
def CreateTask (db : DB) (eventID : Int) (parent : Option Int) (maxSlots : Option Int) :
    DB × Task :=
  let maxPos := maxPosOr (siblingTaskPositions db eventID parent)
  let maxGroup := maxPosOr (siblingGroupPositions db eventID parent)
  let best := if maxGroup > maxPos then maxGroup else maxPos
  let t : Task :=
    { id := db.nextTaskID, eventID := eventID, groupID := parent,
      maxSlots := maxSlots, position := best + 1 }
  ({ db with tasks := db.tasks ++ [t], nextTaskID := db.nextTaskID + 1 }, t)

/-- `DeleteTaskGroup`: read the group's own parent (a failed lookup leaves
the NULL zero value, as a failed `Scan` does), re-point every direct child
task's `group_id` and every direct child group's `parent_group_id` to it,
then delete the group row. -/
def DeleteTaskGroup (db : DB) (gid : Int) : DB :=
  let parentID : Option Int :=
    match findGroup db gid with
    | some g => g.parentGroupID
    | none => none
  { db with
    tasks := db.tasks.map (fun t =>
      if t.groupID = some gid then { t with groupID := parentID } else t),
    groups := (db.groups.map (fun g =>
      if g.parentGroupID = some gid then { g with parentGroupID := parentID } else g)).filter
        (fun g => !(g.id == gid)) }

mutual
/-- A node of the client-supplied reorder tree: a type tag (`"group"` or
`"task"`), the row id, and nested children (Go's `Children` slice, as a
forest so the mutual recursion below is structural). -/
inductive ReorderNode where
  | mk (ty : String) (id : Int) (children : ReorderForest)
/-- A sibling list of reorder nodes. -/
inductive ReorderForest where
  | nil
  | cons (node : ReorderNode) (rest : ReorderForest)
end

/-- `UPDATE task_groups SET position=?, parent_group_id=? WHERE id=?`. -/
def updateGroupRow (db : DB) (gid : Int) (pos : Int) (parent : Option Int) : DB :=
  { db with groups := db.groups.map (fun g =>
      if g.id = gid then { g with position := pos, parentGroupID := parent } else g) }

/-- `UPDATE tasks SET position=?, group_id=? WHERE id=?`. -/
def updateTaskRow (db : DB) (tid : Int) (pos : Int) (parent : Option Int) : DB :=
  { db with tasks := db.tasks.map (fun t =>
      if t.id = tid then { t with position := pos, groupID := parent } else t) }

mutual
/-- Effect of one reorder-tree node at sibling index `i` (the `switch
node.Type` body): a group node updates its row then recurses into its
children with itself as parent; a task node updates its row; any other
type tag is skipped. -/
def applyReorderOne (db : DB) (node : ReorderNode) (i : Nat) (parent : Option Int) : DB :=
  match node with
  | .mk ty nid children =>
    if ty = "group" then
      applyReorderAux (updateGroupRow db nid (i : Int) parent) children (some nid) 0
    else if ty = "task" then updateTaskRow db nid (i : Int) parent
    else db
/-- `ApplyReorder`'s loop over a sibling list, `i` the running index. -/
def applyReorderAux (db : DB) (nodes : ReorderForest) (parent : Option Int) (i : Nat) : DB :=
  match nodes with
  | .nil => db
  | .cons node rest => applyReorderAux (applyReorderOne db node i parent) rest parent (i + 1)
end

/-- `ApplyReorder(db, nodes, parentGroupID)` as called by the reorder API. -/
def ApplyReorder (db : DB) (nodes : ReorderForest) (parent : Option Int) : DB :=
  applyReorderAux db nodes parent 0

/-- One UPDATE statement issued by `ApplyReorder`. -/
inductive Upd where
  | group (id : Int) (pos : Int) (parent : Option Int)
  | task (id : Int) (pos : Int) (parent : Option Int)
deriving DecidableEq, Repr

mutual
/-- The UPDATE statements one reorder-tree node gives rise to. -/
def writesOne (node : ReorderNode) (i : Nat) (parent : Option Int) : List Upd :=
  match node with
  | .mk ty nid children =>
    if ty = "group" then Upd.group nid (i : Int) parent :: writesAux children (some nid) 0
    else if ty = "task" then [Upd.task nid (i : Int) parent]
    else []
/-- The flat sequence of UPDATE statements `ApplyReorder` issues. -/
def writesAux (nodes : ReorderForest) (parent : Option Int) (i : Nat) : List Upd :=
  match nodes with
  | .nil => []
  | .cons node rest => writesOne node i parent ++ writesAux rest parent (i + 1)
end

/-- Effect of one UPDATE on one task row. -/
def applyUpdTask (t : Task) : Upd → Task
  | .task uid pos par => if t.id = uid then { t with position := pos, groupID := par } else t
  | .group _ _ _ => t

/-- Effect of one UPDATE on one group row. -/
def applyUpdGroup (g : TaskGroup) : Upd → TaskGroup
  | .group uid pos par =>
    if g.id = uid then { g with position := pos, parentGroupID := par } else g
  | .task _ _ _ => g

/-- Row-wise application of a sequence of UPDATE statements. -/
def applyWrites (db : DB) (ws : List Upd) : DB :=
  { db with tasks := db.tasks.map (fun t => ws.foldl applyUpdTask t),
            groups := db.groups.map (fun g => ws.foldl applyUpdGroup g) }

/-- The task id an UPDATE statement touches, if any. -/
def updTaskId : Upd → Option Int
  | .task uid _ _ => some uid
  | .group _ _ _ => none

/-- The group id an UPDATE statement touches, if any. -/
def updGroupId : Upd → Option Int
  | .group uid _ _ => some uid
  | .task _ _ _ => none

/-- Position and parent a task UPDATE assigns to a given row, if it hits. -/
def updTaskVal (u : Upd) (tid : Int) : Option (Int × Option Int) :=
  match u with
  | .task uid pos par => if uid = tid then some (pos, par) else none
  | .group _ _ _ => none

/-- Position and parent a group UPDATE assigns to a given row, if it hits. -/
def updGroupVal (u : Upd) (gid : Int) : Option (Int × Option Int) :=
  match u with
  | .group uid pos par => if uid = gid then some (pos, par) else none
  | .task _ _ _ => none

/-- The last task UPDATE in a write sequence hitting a given id. -/
def lastTaskUpd (ws : List Upd) (tid : Int) : Option (Int × Option Int) :=
  ws.foldr (fun u acc => acc.orElse fun _ => updTaskVal u tid) none

/-- The last group UPDATE in a write sequence hitting a given id. -/
def lastGroupUpd (ws : List Upd) (gid : Int) : Option (Int × Option Int) :=
  ws.foldr (fun u acc => acc.orElse fun _ => updGroupVal u gid) none

mutual
/-- Ids of the task nodes `ApplyReorder` touches below one node. -/
def nodeTaskIds : ReorderNode → List Int
  | .mk ty nid children =>
    if ty = "group" then treeTaskIds children
    else if ty = "task" then [nid]
    else []
/-- Ids of the task nodes `ApplyReorder` touches in a reorder tree. -/
def treeTaskIds : ReorderForest → List Int
  | .nil => []
  | .cons node rest => nodeTaskIds node ++ treeTaskIds rest
end

mutual
/-- Ids of the group nodes `ApplyReorder` touches below one node. -/
def nodeGroupIds : ReorderNode → List Int
  | .mk ty nid children =>
    if ty = "group" then nid :: treeGroupIds children
    else []
/-- Ids of the group nodes `ApplyReorder` touches in a reorder tree. -/
def treeGroupIds : ReorderForest → List Int
  | .nil => []
  | .cons node rest => nodeGroupIds node ++ treeGroupIds rest
end

/-- The accent-folding table `accentMap` of models.go. -/
def accentMap (c : Char) : Option Char :=
  match c with
  | 'à' | 'â' | 'ä' | 'á' | 'ã' => some 'a'
  | 'è' | 'ê' | 'ë' | 'é' => some 'e'
  | 'ì' | 'î' | 'ï' | 'í' => some 'i'
  | 'ò' | 'ô' | 'ö' | 'ó' | 'õ' => some 'o'
  | 'ù' | 'û' | 'ü' | 'ú' => some 'u'
  | 'ç' => some 'c'
  | 'ñ' => some 'n'
  | 'ÿ' | 'ý' => some 'y'
  | 'æ' => some 'a'
  | 'œ' => some 'o'
  | 'ø' => some 'o'
  | 'å' => some 'a'
  | 'ß' => some 's'
  | _ => none

/-- Go's `strings.ToLower` on the Latin-1 range (ASCII letters and the
accented uppercase block U+00C0–U+00DE except the multiplication sign),
which covers every character the slug pipeline distinguishes. -/
def goLower (c : Char) : Char :=
  if 'A' ≤ c ∧ c ≤ 'Z' then Char.ofNat (c.toNat + 32)
  else if 0xC0 ≤ c.toNat ∧ c.toNat ≤ 0xDE ∧ c.toNat ≠ 0xD7 then Char.ofNat (c.toNat + 32)
  else c

/-- The per-rune body of `GenerateSlug`'s builder loop: keep `[a-z0-9]`,
fold accents, map space/hyphen/underscore to `-`, drop the rest. -/
def slugChar (c : Char) : Option Char :=
  if ('a' ≤ c ∧ c ≤ 'z') ∨ ('0' ≤ c ∧ c ≤ '9') then some c
  else
    match accentMap c with
    | some m => some m
    | none => if c = ' ' ∨ c = '-' ∨ c = '_' then some '-' else none

/-- `strings.Trim(s, "-")`. -/
def trimDashes (l : List Char) : List Char :=
  ((l.dropWhile (fun c => c == '-')).reverse.dropWhile (fun c => c == '-')).reverse

/-- Tail of the duplicate-dash collapse: `prev` is the last emitted char. -/
def collapseAux : Char → List Char → List Char
  | _, [] => []
  | prev, c :: rest =>
    if prev = '-' ∧ c = '-' then collapseAux prev rest
    else c :: collapseAux c rest

/-- Fixpoint of the `for strings.Contains(slug, "--")` replace loop: every
run of consecutive dashes becomes a single dash. -/
def collapseDashes : List Char → List Char
  | [] => []
  | c :: rest => c :: collapseAux c rest

/-- `GenerateSlug` (models.go): lower-case, fold accents / keep alphanumerics
/ map separators to dashes, trim edge dashes, collapse duplicate dashes,
and fall back to `"event"` when nothing is left. -/
def GenerateSlug (title : String) : String :=
  let lowered := title.data.map goLower
  let kept := lowered.filterMap slugChar
  let trimmed := trimDashes kept
  let collapsed := collapseDashes trimmed
  if collapsed.isEmpty then "event" else String.mk collapsed

/-- Number of live registrations with a given case-insensitive email in one
event (the count behind the per-event email-uniqueness invariant). -/
def liveEmailCount (db : DB) (email : String) (eventID : Int) : Nat :=
  (db.regs.filter (fun r =>
    match findTask db r.taskID with
    | some t => lowerStr r.email == lowerStr email && t.eventID == eventID
    | none => false)).length

/-- Does the registration's task belong to the event? -/
def regInEvent (db : DB) (r : Registration) (eventID : Int) : Bool :=
  match findTask db r.taskID with
  | some t => t.eventID == eventID
  | none => false

/-- At most one live registration per case-insensitive email in the event. -/
def atMostOnePerEmail (db : DB) (eventID : Int) : Prop :=
  List.Pairwise (fun r1 r2 =>
    ¬(regInEvent db r1 eventID = true ∧ regInEvent db r2 eventID = true
      ∧ lowerStr r1.email = lowerStr r2.email)) db.regs

/-- Operations of the public flow that carry no change-token. -/
def tokenlessOp : Op → Prop
  | .signup _ _ _ _ _ ct => ct = none
  | .cancel _ => True
  | .admitOp _ _ _ _ _ => False

/-! ## Concrete states used to witness the theorems -/

/-- A task with one slot. -/
def taskW1 : Task := { id := 1, eventID := 1, groupID := none, maxSlots := some 1, position := 0 }

/-- A registration occupying `taskW1`. -/
def regW1 : Registration :=
  { id := 1, taskID := 1, firstName := "X", lastName := "Y", email := "x@y", phone := "0", token := 0 }

/-- A one-slot task already holding one registration. -/
def dbW1 : DB :=
  { events := [1], groups := [], tasks := [taskW1], regs := [regW1],
    nextGroupID := 1, nextTaskID := 2, nextRegID := 2, nextToken := 1 }

/-- A zero-capacity task next to an unlimited task. -/
def dbW2 : DB :=
  { events := [1], groups := [],
    tasks := [{ id := 1, eventID := 1, groupID := none, maxSlots := some 0, position := 0 },
              { id := 2, eventID := 1, groupID := none, maxSlots := none, position := 1 }],
    regs := [], nextGroupID := 1, nextTaskID := 3, nextRegID := 1, nextToken := 0 }

/-- An empty event with one zero-capacity task. -/
def dbW10 : DB :=
  { events := [1], groups := [],
    tasks := [{ id := 1, eventID := 1, groupID := none, maxSlots := some 0, position := 0 }],
    regs := [], nextGroupID := 1, nextTaskID := 2, nextRegID := 1, nextToken := 0 }

/-- The registration whose transfer requests are witnessed below. -/
def regW4 : Registration :=
  { id := 1, taskID := 1, firstName := "A", lastName := "B", email := "a@b", phone := "1", token := 0 }

/-- Two tasks, with `regW4` live on the first. -/
def dbW4 : DB :=
  { events := [1], groups := [],
    tasks := [{ id := 1, eventID := 1, groupID := none, maxSlots := none, position := 0 },
              { id := 2, eventID := 1, groupID := none, maxSlots := some 3, position := 1 }],
    regs := [regW4], nextGroupID := 1, nextTaskID := 3, nextRegID := 2, nextToken := 1 }

/-- One unlimited task in one event, nobody registered yet. -/
def dbC3 : DB :=
  { events := [1], groups := [],
    tasks := [{ id := 1, eventID := 1, groupID := none, maxSlots := none, position := 0 }],
    regs := [], nextGroupID := 1, nextTaskID := 2, nextRegID := 1, nextToken := 0 }

/-- A group tree: root group 1, child group 2 holding group 3 and task 10. -/
def dbW6 : DB :=
  { events := [1],
    groups := [{ id := 1, eventID := 1, parentGroupID := none, position := 0 },
               { id := 2, eventID := 1, parentGroupID := some 1, position := 1 },
               { id := 3, eventID := 1, parentGroupID := some 2, position := 0 }],
    tasks := [{ id := 10, eventID := 1, groupID := some 2, maxSlots := none, position := 1 }],
    regs := [{ id := 1, taskID := 10, firstName := "A", lastName := "B", email := "a@b",
               phone := "1", token := 0 }],
    nextGroupID := 4, nextTaskID := 11, nextRegID := 2, nextToken := 1 }

/-- A small state reordered by the witness below. -/
def dbW7 : DB :=
  { events := [1],
    groups := [{ id := 1, eventID := 1, parentGroupID := none, position := 0 }],
    tasks := [{ id := 10, eventID := 1, groupID := none, maxSlots := none, position := 1 },
              { id := 11, eventID := 1, groupID := some 1, maxSlots := none, position := 0 }],
    regs := [], nextGroupID := 2, nextTaskID := 12, nextRegID := 1, nextToken := 0 }

/-- A reorder tree moving task 10 under group 1; task 11 is not named. -/
def nodesW7 : ReorderForest :=
  .cons (.mk "group" 1 (.cons (.mk "task" 10 .nil) .nil)) .nil

/-- An event with existing siblings at the root, and an empty parent. -/
def dbW8 : DB :=
  { events := [1],
    groups := [{ id := 1, eventID := 1, parentGroupID := none, position := 0 }],
    tasks := [{ id := 10, eventID := 1, groupID := none, maxSlots := none, position := 4 }],
    regs := [], nextGroupID := 2, nextTaskID := 11, nextRegID := 1, nextToken := 0 }

/-- All sibling positions at a parent, groups then tasks: the shared
sequence space the creation position rule ranges over. -/
def siblingPositions (db : DB) (eventID : Int) (parent : Option Int) : List Int :=
  siblingGroupPositions db eventID parent ++ siblingTaskPositions db eventID parent

/-! ## Helper lemmas: the registration engine -/

/-- Case analysis of `RegisterForTask`: not-found rollback, full rollback,
or insert, together with the guard that held in each case. -/
theorem RegisterForTask_cases (db : DB) (tid : Int) (fn ln em ph : String) :
    (RegisterForTask db tid fn ln em ph = (.error .taskNotFound, db) ∧ findTask db tid = none)
    ∨ (RegisterForTask db tid fn ln em ph = (.error .taskFull, db)
        ∧ ∃ t m, findTask db tid = some t ∧ t.maxSlots = some m ∧ (countReg db tid : Int) ≥ m)
    ∨ (RegisterForTask db tid fn ln em ph = registerInsert db tid fn ln em ph
        ∧ ∃ t, findTask db tid = some t
          ∧ ∀ m, t.maxSlots = some m → (countReg db tid : Int) < m) := by
  cases hf : findTask db tid with
  | none =>
    have heq : RegisterForTask db tid fn ln em ph = (.error .taskNotFound, db) := by
      unfold RegisterForTask
      rw [hf]
    exact Or.inl ⟨heq, rfl⟩
  | some t =>
    cases hmax : t.maxSlots with
    | none =>
      have heq : RegisterForTask db tid fn ln em ph = registerInsert db tid fn ln em ph := by
        unfold RegisterForTask
        rw [hf]
        simp [hmax]
      refine Or.inr (Or.inr ⟨heq, t, rfl, ?_⟩)
      intro m hmm
      rw [hmax] at hmm
      cases hmm
    | some m =>
      by_cases hge : (countReg db tid : Int) ≥ m
      · have heq : RegisterForTask db tid fn ln em ph = (.error .taskFull, db) := by
          unfold RegisterForTask
          rw [hf]
          simp [hmax, hge]
        exact Or.inr (Or.inl ⟨heq, t, m, rfl, hmax, hge⟩)
      · have heq : RegisterForTask db tid fn ln em ph = registerInsert db tid fn ln em ph := by
          unfold RegisterForTask
          rw [hf]
          simp [hmax, hge]
        refine Or.inr (Or.inr ⟨heq, t, rfl, ?_⟩)
        intro m' hm'
        rw [hmax] at hm'
        cases hm'
        exact lt_of_not_ge hge

/-- `RegisterForTask` never touches the tasks, events or groups tables. -/
theorem RegisterForTask_frame (db : DB) (tid : Int) (fn ln em ph : String) :
    ((RegisterForTask db tid fn ln em ph).2).tasks = db.tasks
    ∧ ((RegisterForTask db tid fn ln em ph).2).events = db.events
    ∧ ((RegisterForTask db tid fn ln em ph).2).groups = db.groups := by
  rcases RegisterForTask_cases db tid fn ln em ph with ⟨h, -⟩ | ⟨h, -⟩ | ⟨h, -⟩ <;>
    rw [h] <;> exact ⟨rfl, rfl, rfl⟩

/-- The insert step adds one row on its own task and none elsewhere. -/
theorem countReg_registerInsert (db : DB) (tid tid' : Int) (fn ln em ph : String) :
    countReg ((registerInsert db tid' fn ln em ph).2) tid =
      countReg db tid + (if tid' = tid then 1 else 0) := by
  unfold registerInsert countReg
  by_cases h : tid' = tid <;>
    simp [List.filter_append, h, newReg]

/-- A lookup only depends on the tasks table. -/
theorem findTask_congr {db1 db : DB} (h : db1.tasks = db.tasks) (tid : Int) :
    findTask db1 tid = findTask db tid := by
  unfold findTask
  rw [h]

/-- Deleting rows can only decrease a task's live count. -/
theorem countReg_delete_le (db : DB) (tok : Nat) (tid : Int) :
    countReg (DeleteRegistrationByToken db tok) tid ≤ countReg db tid := by
  unfold DeleteRegistrationByToken countReg
  exact List.Sublist.length_le (List.Sublist.filter _ (List.filter_sublist _))

/-- Any single `RegisterForTask` call keeps a bounded task bounded. -/
theorem countReg_admit_le (db : DB) (tid : Int) (t : Task) (N : Int)
    (ht : findTask db tid = some t) (hm : t.maxSlots = some N)
    (hc : (countReg db tid : Int) ≤ N) (tid' : Int) (fn ln em ph : String) :
    (countReg ((RegisterForTask db tid' fn ln em ph).2) tid : Int) ≤ N := by
  rcases RegisterForTask_cases db tid' fn ln em ph with ⟨h, -⟩ | ⟨h, -⟩ | ⟨h, t', ht', hlt⟩
  · rw [h]; exact hc
  · rw [h]; exact hc
  · rw [h, countReg_registerInsert]
    by_cases he : tid' = tid
    · subst he
      rw [ht] at ht'
      injection ht' with ht''
      subst ht''
      have := hlt N hm
      simp only [if_pos rfl]
      push_cast
      omega
    · simp [he, hc]

/-- The response-mapping tail leaves the state of `RegisterForTask`. -/
theorem finishRegister_snd (db : DB) (tid : Int) (fn ln em ph : String) :
    (finishRegister db tid fn ln em ph).2 = (RegisterForTask db tid fn ln em ph).2 := by
  unfold finishRegister
  split <;> simp_all

/-- The state `handlePublicSignup` leaves behind: unchanged, or the result
of admitting on the original state, or of admitting after a delete-by-token. -/
theorem handle_snd_cases (db : DB) (tid : Int) (fn ln em ph : String) (ct : Option Nat) :
    (handlePublicSignup db tid fn ln em ph ct).2 = db
    ∨ (handlePublicSignup db tid fn ln em ph ct).2 = (RegisterForTask db tid fn ln em ph).2
    ∨ ∃ tok, (handlePublicSignup db tid fn ln em ph ct).2 =
        (RegisterForTask (DeleteRegistrationByToken db tok) tid fn ln em ph).2 := by
  unfold handlePublicSignup
  split
  · exact Or.inl rfl
  · split
    · split
      · exact Or.inl rfl
      · split
        · split
          · split
            · exact Or.inl rfl
            · exact Or.inr (Or.inr ⟨_, finishRegister_snd _ _ _ _ _ _⟩)
          · exact Or.inr (Or.inl (finishRegister_snd _ _ _ _ _ _))
        · split
          · exact Or.inl rfl
          · exact Or.inr (Or.inl (finishRegister_snd _ _ _ _ _ _))
    · exact Or.inl rfl

/-- No operation of the flow touches the tasks, events or groups tables. -/
theorem step_frame (db : DB) (op : Op) :
    (step db op).tasks = db.tasks ∧ (step db op).events = db.events
    ∧ (step db op).groups = db.groups := by
  cases op with
  | admitOp tid fn ln em ph => exact RegisterForTask_frame db tid fn ln em ph
  | signup tid fn ln em ph ct =>
    show ((handlePublicSignup db tid fn ln em ph ct).2).tasks = db.tasks
      ∧ ((handlePublicSignup db tid fn ln em ph ct).2).events = db.events
      ∧ ((handlePublicSignup db tid fn ln em ph ct).2).groups = db.groups
    rcases handle_snd_cases db tid fn ln em ph ct with h | h | ⟨tok, h⟩
    · rw [h]; exact ⟨rfl, rfl, rfl⟩
    · rw [h]; exact RegisterForTask_frame db tid fn ln em ph
    · rw [h]
      exact RegisterForTask_frame (DeleteRegistrationByToken db tok) tid fn ln em ph
  | cancel tok =>
    show (handlePublicCancel db tok).tasks = db.tasks
      ∧ (handlePublicCancel db tok).events = db.events
      ∧ (handlePublicCancel db tok).groups = db.groups
    unfold handlePublicCancel
    split <;> exact ⟨rfl, rfl, rfl⟩

/-- A bounded task stays bounded across one operation. -/
theorem countReg_step_le (db : DB) (tid : Int) (t : Task) (N : Int)
    (ht : findTask db tid = some t) (hm : t.maxSlots = some N)
    (hc : (countReg db tid : Int) ≤ N) (op : Op) :
    (countReg (step db op) tid : Int) ≤ N := by
  cases op with
  | admitOp tid' fn ln em ph => exact countReg_admit_le db tid t N ht hm hc tid' fn ln em ph
  | signup tid' fn ln em ph ct =>
    show (countReg ((handlePublicSignup db tid' fn ln em ph ct).2) tid : Int) ≤ N
    rcases handle_snd_cases db tid' fn ln em ph ct with h | h | ⟨tok, h⟩
    · rw [h]; exact hc
    · rw [h]; exact countReg_admit_le db tid t N ht hm hc tid' fn ln em ph
    · rw [h]
      have ht1 : findTask (DeleteRegistrationByToken db tok) tid = some t := ht
      have hc1 : (countReg (DeleteRegistrationByToken db tok) tid : Int) ≤ N := by
        have := countReg_delete_le db tok tid
        omega
      exact countReg_admit_le _ tid t N ht1 hm hc1 tid' fn ln em ph
  | cancel tok =>
    show (countReg (handlePublicCancel db tok) tid : Int) ≤ N
    unfold handlePublicCancel
    split
    · have := countReg_delete_le db tok tid
      omega
    · exact hc

/-- A bounded task stays bounded across any operation sequence. -/
theorem countReg_run_le (db : DB) (tid : Int) (t : Task) (N : Int)
    (ops : List Op) (ht : findTask db tid = some t) (hm : t.maxSlots = some N)
    (hc : (countReg db tid : Int) ≤ N) :
    (countReg (run db ops) tid : Int) ≤ N := by
  induction ops generalizing db with
  | nil => exact hc
  | cons op rest ih =>
    have ht' : findTask (step db op) tid = some t := by
      rw [findTask_congr (step_frame db op).1]
      exact ht
    exact ih (step db op) ht' (countReg_step_le db tid t N ht hm hc op)

/-! ## The claims -/

/-- C1: for every task with capacity limit `max_slots = N`, after any
sequence of Admit (`RegisterForTask`), Transfer and Cancel operations the
live registration count never exceeds N, and an Admit performed when the
count has already reached N is rejected with `task_full` and inserts no
row (the state is returned unchanged). -/
theorem capacity_never_oversold (db : DB) (tid : Int) (t : Task) (N : Int)
    (ops : List Op) (ht : findTask db tid = some t) (hm : t.maxSlots = some N)
    (hc : (countReg db tid : Int) ≤ N) :
    ((countReg (run db ops) tid : Int) ≤ N)
    ∧ (∀ fn ln em ph, (countReg db tid : Int) ≥ N →
        RegisterForTask db tid fn ln em ph = (.error .taskFull, db)) := by
  refine ⟨countReg_run_le db tid t N ops ht hm hc, ?_⟩
  intro fn ln em ph hge
  unfold RegisterForTask
  rw [ht]
  simp [hm, hge]

/-- Witness for C1 at a one-slot task holding one registration. -/
theorem capacity_never_oversold_witness :
    ((countReg (run dbW1 [.admitOp 1 "A" "B" "a@b" "1", .cancel 0]) 1 : Int) ≤ 1)
    ∧ RegisterForTask dbW1 1 "A" "B" "a@b" "1" = (.error .taskFull, dbW1) :=
  ⟨(capacity_never_oversold dbW1 1 taskW1 1 [.admitOp 1 "A" "B" "a@b" "1", .cancel 0]
      (by decide) (by decide) (by decide)).1,
   (capacity_never_oversold dbW1 1 taskW1 1 [] (by decide) (by decide) (by decide)).2
      "A" "B" "a@b" "1" (by decide)⟩

/-- C2: `RegisterForTask` returns `task_full` exactly when the task exists
and carries a `max_slots` limit at or below the current live count; a task
with no limit always admits; an unknown task id yields the not-found error
and leaves the state unchanged. -/
theorem admit_outcome_characterization (db : DB) (tid : Int) (fn ln em ph : String) :
    ((RegisterForTask db tid fn ln em ph).1 = .error .taskFull ↔
        ∃ t m, findTask db tid = some t ∧ t.maxSlots = some m ∧ (countReg db tid : Int) ≥ m)
    ∧ (∀ t, findTask db tid = some t → t.maxSlots = none →
        ∃ r, (RegisterForTask db tid fn ln em ph).1 = .ok r)
    ∧ (findTask db tid = none →
        RegisterForTask db tid fn ln em ph = (.error .taskNotFound, db)) := by
  refine ⟨⟨?_, ?_⟩, ?_, ?_⟩
  · intro hfull
    rcases RegisterForTask_cases db tid fn ln em ph with ⟨h, -⟩ | ⟨-, hx⟩ | ⟨h, -⟩
    · rw [h] at hfull
      simp at hfull
    · exact hx
    · rw [h] at hfull
      simp [registerInsert] at hfull
  · rintro ⟨t, m, ht, hmax, hge⟩
    unfold RegisterForTask
    rw [ht]
    simp [hmax, hge]
  · intro t ht hnone
    unfold RegisterForTask
    rw [ht]
    simp [hnone, registerInsert]
  · intro hnone
    unfold RegisterForTask
    rw [hnone]

/-- Witness for C2: the not-found and full cases at concrete states. -/
theorem admit_outcome_characterization_witness :
    RegisterForTask dbW2 9 "A" "B" "e" "p" = (.error .taskNotFound, dbW2)
    ∧ (RegisterForTask dbW2 1 "A" "B" "e" "p").1 = .error .taskFull :=
  ⟨(admit_outcome_characterization dbW2 9 "A" "B" "e" "p").2.2 (by decide),
   (admit_outcome_characterization dbW2 1 "A" "B" "e" "p").1.mpr
     ⟨{ id := 1, eventID := 1, groupID := none, maxSlots := some 0, position := 0 }, 0,
       by decide, by decide, by decide⟩⟩

/-- C10: a task whose `max_slots` is present and equal to 0 rejects every
Admit with `task_full` and inserts nothing, even with zero live
registrations — zero capacity means full, not unlimited. -/
theorem zero_capacity_rejects (db : DB) (tid : Int) (t : Task) (fn ln em ph : String)
    (ht : findTask db tid = some t) (hm : t.maxSlots = some 0) :
    RegisterForTask db tid fn ln em ph = (.error .taskFull, db) := by
  unfold RegisterForTask
  rw [ht]
  have hge : (countReg db tid : Int) ≥ 0 := Int.natCast_nonneg _
  simp [hm, hge]

/-- Witness for C10 at an empty zero-capacity task. -/
theorem zero_capacity_rejects_witness :
    RegisterForTask dbW10 1 "A" "B" "e" "p" = (.error .taskFull, dbW10)
    ∧ countReg dbW10 1 = 0 :=
  ⟨zero_capacity_rejects dbW10 1
     { id := 1, eventID := 1, groupID := none, maxSlots := some 0, position := 0 }
     "A" "B" "e" "p" (by decide) (by decide),
   by decide⟩

/-- C4: a transfer naming the task the registration already belongs to
mutates nothing — the response carries the existing registration (same id,
same token) and the state is returned exactly as it was. -/
theorem transfer_same_task_noop (db : DB) (tid : Int) (fn ln em ph : String)
    (tok : Nat) (r : Registration) (task : Task)
    (htask : findTask db tid = some task) (hev : task.eventID ∈ db.events)
    (hfn : fn ≠ "") (hln : ln ≠ "") (hem : em ≠ "") (hph : ph ≠ "")
    (hr : GetRegistrationByToken db tok = some r) (hsame : r.taskID = tid) :
    handlePublicSignup db tid fn ln em ph (some tok) = (.sameTask r, db) := by
  unfold handlePublicSignup
  rw [htask]
  simp [hev, hfn, hln, hem, hph, hr, hsame]

/-- Witness for C4: re-choosing the same task returns the old row. -/
theorem transfer_same_task_noop_witness :
    handlePublicSignup dbW4 1 "A" "B" "a@b" "1" (some 0) = (.sameTask regW4, dbW4) :=
  transfer_same_task_noop dbW4 1 "A" "B" "a@b" "1" 0 regW4
    { id := 1, eventID := 1, groupID := none, maxSlots := none, position := 0 }
    (by decide) (by decide) (by decide) (by decide) (by decide) (by decide)
    (by decide) (by decide)

/-- C5: a transfer to a different task that is not full first deletes the
old row and only then admits on the new task (the final state is exactly
`RegisterForTask` applied to the token-deleted state); the new
registration sits on the new task with a freshly generated token distinct
from the old one, and the old token afterwards resolves to nothing. -/
theorem transfer_moves_registration (db : DB) (tid : Int) (fn ln em ph : String)
    (tok : Nat) (r : Registration) (task : Task)
    (htask : findTask db tid = some task) (hev : task.eventID ∈ db.events)
    (hfn : fn ≠ "") (hln : ln ≠ "") (hem : em ≠ "") (hph : ph ≠ "")
    (hr : GetRegistrationByToken db tok = some r) (hdiff : r.taskID ≠ tid)
    (hfresh : ∀ r' ∈ db.regs, r'.token < db.nextToken)
    (hcap : ∀ m, task.maxSlots = some m → (countReg db tid : Int) < m) :
    ∃ reg,
      handlePublicSignup db tid fn ln em ph (some tok)
        = (.registered reg,
           (RegisterForTask (DeleteRegistrationByToken db tok) tid fn ln em ph).2)
      ∧ (RegisterForTask (DeleteRegistrationByToken db tok) tid fn ln em ph).1 = .ok reg
      ∧ reg.taskID = tid
      ∧ reg.token ≠ r.token
      ∧ GetRegistrationByToken
          ((RegisterForTask (DeleteRegistrationByToken db tok) tid fn ln em ph).2)
          r.token = none := by
  have hrtok : r.token = tok := by
    have := List.find?_some hr
    simpa using this
  have hrmem : r ∈ db.regs := List.mem_of_find?_eq_some hr
  have hfreshr : r.token < db.nextToken := hfresh r hrmem
  have ht1 : findTask (DeleteRegistrationByToken db tok) tid = some task := htask
  have hcap1 : ∀ m, task.maxSlots = some m →
      (countReg (DeleteRegistrationByToken db tok) tid : Int) < m := by
    intro m hm
    have h1 := countReg_delete_le db tok tid
    have h2 := hcap m hm
    omega
  have heqR : RegisterForTask (DeleteRegistrationByToken db tok) tid fn ln em ph
      = registerInsert (DeleteRegistrationByToken db tok) tid fn ln em ph := by
    rcases RegisterForTask_cases (DeleteRegistrationByToken db tok) tid fn ln em ph with
      ⟨-, hn⟩ | ⟨-, t', m', ht', hm', hge'⟩ | ⟨h, -⟩
    · rw [ht1] at hn
      cases hn
    · rw [ht1] at ht'
      injection ht' with ht''
      subst ht''
      exact absurd hge' (not_le_of_lt (hcap1 m' hm'))
    · exact h
  refine ⟨{ id := db.nextRegID, taskID := tid, firstName := fn, lastName := ln,
            email := em, phone := ph, token := db.nextToken }, ?_, ?_, rfl, ?_, ?_⟩
  · unfold handlePublicSignup
    rw [htask]
    simp only [hev, hfn, hln, hem, hph, hr, hdiff, if_true, if_false, ite_true,
      ite_false, or_self, false_or, or_false]
    unfold finishRegister
    rw [heqR]
    rfl
  · rw [heqR]
    rfl
  · intro habs
    have habs' : db.nextToken = r.token := habs
    omega
  · rw [heqR]
    unfold GetRegistrationByToken registerInsert DeleteRegistrationByToken
    rw [List.find?_eq_none]
    intro x hx
    rcases List.mem_append.mp hx with hx1 | hx2
    · have hx1' := List.of_mem_filter hx1
      simp only [Bool.not_eq_true', beq_eq_false_iff_ne, ne_eq] at hx1'
      simp only [beq_eq_false_iff_ne, ne_eq, hrtok]
      simpa using hx1'
    · rcases List.mem_singleton.mp hx2 with rfl
      show ¬(db.nextToken == r.token) = true
      simp only [beq_iff_eq]
      omega

/-- Witness for C5: moving `regW4` from task 1 to the roomy task 2. -/
theorem transfer_moves_registration_witness :
    ∃ reg,
      handlePublicSignup dbW4 2 "A" "B" "a@b" "1" (some 0)
        = (.registered reg,
           (RegisterForTask (DeleteRegistrationByToken dbW4 0) 2 "A" "B" "a@b" "1").2)
      ∧ (RegisterForTask (DeleteRegistrationByToken dbW4 0) 2 "A" "B" "a@b" "1").1 = .ok reg
      ∧ reg.taskID = 2
      ∧ reg.token ≠ regW4.token
      ∧ GetRegistrationByToken
          ((RegisterForTask (DeleteRegistrationByToken dbW4 0) 2 "A" "B" "a@b" "1").2)
          regW4.token = none :=
  transfer_moves_registration dbW4 2 "A" "B" "a@b" "1" 0 regW4
    { id := 2, eventID := 1, groupID := none, maxSlots := some 3, position := 1 }
    (by decide) (by decide) (by decide) (by decide) (by decide) (by decide)
    (by decide) (by decide) (by decide) (by decide)

/-- Event membership of a registration only depends on the tasks table. -/
theorem regInEvent_congr {db1 db : DB} (h : db1.tasks = db.tasks)
    (r : Registration) (ev : Int) :
    regInEvent db1 r ev = regInEvent db r ev := by
  unfold regInEvent
  rw [findTask_congr h]

/-- Admitting after a failed duplicate-email lookup preserves per-event
email uniqueness. -/
theorem atMostOne_insert (db : DB) (eventID : Int) (tid : Int) (task : Task)
    (fn ln em ph : String)
    (htask : findTask db tid = some task)
    (hemail : GetRegistrationByEmailAndEvent db em task.eventID = none)
    (hinv : atMostOnePerEmail db eventID) :
    atMostOnePerEmail ((RegisterForTask db tid fn ln em ph).2) eventID := by
  unfold GetRegistrationByEmailAndEvent at hemail
  rcases RegisterForTask_cases db tid fn ln em ph with ⟨h, -⟩ | ⟨h, -⟩ | ⟨h, -⟩
  · rw [h]; exact hinv
  · rw [h]; exact hinv
  · rw [h]
    unfold atMostOnePerEmail
    have htasks : ((registerInsert db tid fn ln em ph).2).tasks = db.tasks := rfl
    simp only [regInEvent_congr htasks]
    have hregs : ((registerInsert db tid fn ln em ph).2).regs
        = db.regs ++ [newReg db tid fn ln em ph] := rfl
    rw [hregs, List.pairwise_append]
    refine ⟨hinv, List.pairwise_singleton _ _, ?_⟩
    intro a ha b hb
    rcases List.mem_singleton.mp hb with rfl
    rintro ⟨hai, hbi, hemeq⟩
    have hbev : task.eventID = eventID := by
      unfold regInEvent at hbi
      rw [show findTask db (newReg db tid fn ln em ph).taskID = some task from htask] at hbi
      simpa using hbi
    have hpred := List.find?_eq_none.mp hemail a ha
    apply hpred
    unfold regInEvent at hai
    cases hfa : findTask db a.taskID with
    | none =>
      rw [hfa] at hai
      cases hai
    | some ta =>
      rw [hfa] at hai
      have htaev : ta.eventID = eventID := by simpa using hai
      have hem2 : lowerStr a.email = lowerStr em := by simpa [newReg] using hemeq
      simp [hfa, hem2, htaev, hbev]

/-- A token-less signup either changes nothing or admits after the
duplicate-email lookup came back empty. -/
theorem handle_none_cases (db : DB) (tid : Int) (fn ln em ph : String) :
    (handlePublicSignup db tid fn ln em ph none).2 = db
    ∨ ∃ task, findTask db tid = some task
        ∧ GetRegistrationByEmailAndEvent db em task.eventID = none
        ∧ (handlePublicSignup db tid fn ln em ph none).2
            = (RegisterForTask db tid fn ln em ph).2 := by
  cases htaskc : findTask db tid with
  | none =>
    left
    simp [handlePublicSignup, htaskc]
  | some task =>
    by_cases hev : task.eventID ∈ db.events
    · by_cases hval : fn = "" ∨ ln = "" ∨ em = "" ∨ ph = ""
      · left
        simp [handlePublicSignup, htaskc, hev, hval]
      · cases hemail : GetRegistrationByEmailAndEvent db em task.eventID with
        | some ex =>
          left
          simp [handlePublicSignup, htaskc, hev, hval, hemail]
        | none =>
          right
          refine ⟨task, rfl, hemail, ?_⟩
          simp [handlePublicSignup, htaskc, hev, hval, hemail, finishRegister_snd]
    · left
      simp [handlePublicSignup, htaskc, hev]

/-- One token-less public operation preserves per-event email uniqueness. -/
theorem atMostOne_step (db : DB) (eventID : Int) (op : Op) (hop : tokenlessOp op)
    (hinv : atMostOnePerEmail db eventID) :
    atMostOnePerEmail (step db op) eventID := by
  cases op with
  | admitOp tid fn ln em ph => exact (hop : False).elim
  | cancel tok =>
    show atMostOnePerEmail (handlePublicCancel db tok) eventID
    unfold handlePublicCancel
    split
    · unfold atMostOnePerEmail
      have htasks : (DeleteRegistrationByToken db tok).tasks = db.tasks := rfl
      simp only [regInEvent_congr htasks]
      exact List.Pairwise.sublist (List.filter_sublist _) hinv
    · exact hinv
  | signup tid fn ln em ph ct =>
    have hct : ct = none := hop
    subst hct
    show atMostOnePerEmail ((handlePublicSignup db tid fn ln em ph none).2) eventID
    rcases handle_none_cases db tid fn ln em ph with h | ⟨task, htask, hemail, h⟩
    · rw [h]
      exact hinv
    · rw [h]
      exact atMostOne_insert db eventID tid task fn ln em ph htask hemail hinv

/-- C3 (counterexample): from an empty event, a plain signup followed by a
second signup with the same email carrying a garbage change-token leaves
two live registrations with the same case-insensitive email in the event:
a non-empty token makes the handler skip the duplicate-email check. -/
theorem email_uniqueness_counterexample :
    liveEmailCount
      (run dbC3 [.signup 1 "A" "B" "a@x" "p" none, .signup 1 "A" "B" "a@x" "p" (some 99)])
      "a@x" 1 = 2 := by decide

/-- C3 (amended): across public signups that carry no change-token and
cancels, at most one live registration exists per case-insensitive email
within an event. -/
theorem email_uniqueness_tokenless (db : DB) (eventID : Int) (ops : List Op)
    (hops : ∀ op ∈ ops, tokenlessOp op) (hinv : atMostOnePerEmail db eventID) :
    atMostOnePerEmail (run db ops) eventID := by
  induction ops generalizing db with
  | nil => exact hinv
  | cons op rest ih =>
    exact ih (step db op) (fun o ho => hops o (List.mem_cons_of_mem _ ho))
      (atMostOne_step db eventID op (hops op (List.mem_cons_self _ _)) hinv)

/-- Witness for the amended C3 on a concrete token-less sequence. -/
theorem email_uniqueness_tokenless_witness :
    atMostOnePerEmail (run dbC3 [.signup 1 "A" "B" "a@x" "p" none, .cancel 5]) 1 :=
  email_uniqueness_tokenless dbC3 1 [.signup 1 "A" "B" "a@x" "p" none, .cancel 5]
    (by
      intro op hop
      rcases List.mem_cons.mp hop with rfl | hop2
      · rfl
      · rcases List.mem_cons.mp hop2 with rfl | h3
        · trivial
        · cases h3)
    List.Pairwise.nil

/-- C6: deleting a group re-parents every direct child task (`group_id`)
and every direct child group (`parent_group_id`) to the deleted group's
own former parent and then removes only the deleted group's row: the
registrations table is untouched, no task row is deleted, every surviving
row keeps its position (the re-parented rows change only their parent
field), and the groups table loses exactly the rows carrying the deleted
id. -/
theorem delete_group_promotes_children (db : DB) (gid : Int) (g : TaskGroup)
    (hg : findGroup db gid = some g) :
    (DeleteTaskGroup db gid).regs = db.regs
    ∧ (DeleteTaskGroup db gid).events = db.events
    ∧ (DeleteTaskGroup db gid).tasks.length = db.tasks.length
    ∧ (∀ t ∈ db.tasks,
        (if t.groupID = some gid then { t with groupID := g.parentGroupID } else t)
          ∈ (DeleteTaskGroup db gid).tasks)
    ∧ (∀ g2 ∈ db.groups, g2.id ≠ gid →
        (if g2.parentGroupID = some gid then { g2 with parentGroupID := g.parentGroupID }
          else g2) ∈ (DeleteTaskGroup db gid).groups)
    ∧ (∀ g2 ∈ (DeleteTaskGroup db gid).groups, g2.id ≠ gid)
    ∧ (DeleteTaskGroup db gid).groups.length
        + (db.groups.filter (fun x => x.id == gid)).length = db.groups.length := by
  have hD : DeleteTaskGroup db gid =
      { db with
        tasks := db.tasks.map (fun t =>
          if t.groupID = some gid then { t with groupID := g.parentGroupID } else t),
        groups := (db.groups.map (fun g2 =>
          if g2.parentGroupID = some gid then { g2 with parentGroupID := g.parentGroupID }
          else g2)).filter (fun g2 => !(g2.id == gid)) } := by
    unfold DeleteTaskGroup
    rw [hg]
  rw [hD]
  refine ⟨rfl, rfl, by simp, ?_, ?_, ?_, ?_⟩
  · intro t htm
    exact List.mem_map_of_mem _ htm
  · intro g2 hm hne
    refine List.mem_filter.mpr ⟨List.mem_map_of_mem _ hm, ?_⟩
    have hid : (if g2.parentGroupID = some gid then
        { g2 with parentGroupID := g.parentGroupID } else g2).id = g2.id := by
      split <;> rfl
    simp [hid, hne]
  · intro g2 hm
    have := (List.mem_filter.mp hm).2
    simpa using this
  · show (List.filter (fun g2 => !(g2.id == gid))
        (db.groups.map (fun g2 => if g2.parentGroupID = some gid then
          { g2 with parentGroupID := g.parentGroupID } else g2))).length
        + (List.filter (fun x => x.id == gid) db.groups).length = db.groups.length
    rw [← List.countP_eq_length_filter, ← List.countP_eq_length_filter, List.countP_map]
    have hcongr : List.countP ((fun g2 => !(g2.id == gid)) ∘ fun g2 =>
        if g2.parentGroupID = some gid then { g2 with parentGroupID := g.parentGroupID }
        else g2) db.groups
        = List.countP (fun x => !(x.id == gid)) db.groups := by
      apply List.countP_congr
      intro x hx
      by_cases hp : x.parentGroupID = some gid <;> simp [Function.comp, hp]
    rw [hcongr]
    have hlen := List.length_eq_countP_add_countP (fun x => x.id == gid) db.groups
    have hnot : List.countP (fun a => decide ¬((a.id == gid) = true)) db.groups
        = List.countP (fun x => !(x.id == gid)) db.groups := by
      apply List.countP_congr
      intro x hx
      simp
    rw [hnot] at hlen
    omega

/-- Witness for C6: deleting group 2 of `dbW6` promotes group 3 and task
10 to group 1, keeps the registration, and drops the row of group 2. -/
theorem delete_group_promotes_children_witness :
    (DeleteTaskGroup dbW6 2).regs = dbW6.regs
    ∧ ({ id := 10, eventID := 1, groupID := some 1, maxSlots := none, position := 1 } : Task)
        ∈ (DeleteTaskGroup dbW6 2).tasks
    ∧ ({ id := 3, eventID := 1, parentGroupID := some 1, position := 0 } : TaskGroup)
        ∈ (DeleteTaskGroup dbW6 2).groups
    ∧ (DeleteTaskGroup dbW6 2).groups.length + 1 = dbW6.groups.length := by
  have h := delete_group_promotes_children dbW6 2
    { id := 2, eventID := 1, parentGroupID := some 1, position := 1 } (by decide)
  refine ⟨h.1, ?_, ?_, ?_⟩
  · have := h.2.2.2.1
      { id := 10, eventID := 1, groupID := some 2, maxSlots := none, position := 1 }
      (by decide)
    simpa using this
  · have := h.2.2.2.2.1
      { id := 3, eventID := 1, parentGroupID := some 2, position := 0 }
      (by decide) (by decide)
    simpa using this
  · have := h.2.2.2.2.2.2
    have hl : (dbW6.groups.filter (fun x => x.id == 2)).length = 1 := by decide
    omega

/-- A fold of `max` stays above its seed and its list, and lands on one of
them. -/
theorem foldl_max_spec (x : Int) (xs : List Int) :
    (xs.foldl max x = x ∨ xs.foldl max x ∈ xs)
    ∧ x ≤ xs.foldl max x ∧ ∀ p ∈ xs, p ≤ xs.foldl max x := by
  induction xs generalizing x with
  | nil => simp
  | cons y ys ih =>
    have h := ih (max x y)
    rw [List.foldl_cons]
    refine ⟨?_, ?_, ?_⟩
    · rcases h.1 with h1 | h1
      · rcases max_cases x y with ⟨hm, -⟩ | ⟨hm, -⟩
        · left
          rw [h1, hm]
        · right
          rw [h1, hm]
          exact List.mem_cons_self _ _
      · right
        exact List.mem_cons_of_mem _ h1
    · exact le_trans (le_max_left x y) h.2.1
    · intro p hp
      rcases List.mem_cons.mp hp with rfl | hp2
      · exact le_trans (le_max_right x p) h.2.1
      · exact h.2.2 p hp2

/-- `COALESCE(MAX(position), -1)` over a nonempty list is its maximum. -/
theorem maxPosOr_spec (l : List Int) (hl : l ≠ []) :
    maxPosOr l ∈ l ∧ ∀ p ∈ l, p ≤ maxPosOr l := by
  match l with
  | x :: xs =>
    have h := foldl_max_spec x xs
    have hm : maxPosOr (x :: xs) = xs.foldl max x := rfl
    rw [hm]
    refine ⟨?_, ?_⟩
    · rcases h.1 with h1 | h1
      · rw [h1]
        exact List.mem_cons_self _ _
      · exact List.mem_cons_of_mem _ h1
    · intro p hp
      rcases List.mem_cons.mp hp with rfl | hp2
      · exact h.2.1
      · exact h.2.2 p hp2

/-- Go's `if b > a { a = b }` computes the binary maximum. -/
theorem if_gt_eq_max (a b : Int) : (if b > a then b else a) = max a b := by
  rcases le_or_lt b a with h | h
  · rw [if_neg (not_lt.mpr h), max_eq_left h]
  · rw [if_pos h, max_eq_right (le_of_lt h)]

/-- Over nonnegative positions, the maximum of the two per-kind
`COALESCE(MAX, -1)` aggregates is the maximum of the combined nonempty
sibling list. -/
theorem max_append_spec (A B : List Int)
    (hA : ∀ p ∈ A, (0 : Int) ≤ p) (hB : ∀ p ∈ B, (0 : Int) ≤ p) (hne : A ++ B ≠ []) :
    max (maxPosOr A) (maxPosOr B) ∈ A ++ B
    ∧ ∀ p ∈ A ++ B, p ≤ max (maxPosOr A) (maxPosOr B) := by
  rcases List.eq_nil_or_concat A with rfl | hAne
  · have hBne : B ≠ [] := by simpa using hne
    have hB' := maxPosOr_spec B hBne
    have hBnn : (0 : Int) ≤ maxPosOr B := hB _ hB'.1
    have hmax : max (maxPosOr []) (maxPosOr B) = maxPosOr B := by
      apply max_eq_right
      show (-1 : Int) ≤ maxPosOr B
      omega
    rw [hmax]
    simpa using hB'
  · have hAne' : A ≠ [] := by
      rcases hAne with ⟨l, a, rfl⟩
      simp
    have hA' := maxPosOr_spec A hAne'
    have hAnn : (0 : Int) ≤ maxPosOr A := hA _ hA'.1
    rcases List.eq_nil_or_concat B with rfl | hBne
    · have hmax : max (maxPosOr A) (maxPosOr []) = maxPosOr A := by
        apply max_eq_left
        show (-1 : Int) ≤ maxPosOr A
        omega
      rw [hmax]
      simpa using hA'
    · have hBne' : B ≠ [] := by
        rcases hBne with ⟨l, a, rfl⟩
        simp
      have hB' := maxPosOr_spec B hBne'
      constructor
      · rcases max_cases (maxPosOr A) (maxPosOr B) with ⟨hm, -⟩ | ⟨hm, -⟩
        · rw [hm]
          exact List.mem_append_left _ hA'.1
        · rw [hm]
          exact List.mem_append_right _ hB'.1
      · intro p hp
        rcases List.mem_append.mp hp with hp1 | hp1
        · exact le_trans (hA'.2 p hp1) (le_max_left _ _)
        · exact le_trans (hB'.2 p hp1) (le_max_right _ _)

/-- C8: a newly created group or task is assigned position one past the
maximum position among all direct siblings of both kinds at the target
parent (one shared sequence space), and position 0 when no sibling of
either kind exists there. -/
theorem create_assigns_end_position (db : DB) (eventID : Int) (parent : Option Int)
    (maxSlots : Option Int)
    (hpos : ∀ p ∈ siblingPositions db eventID parent, (0 : Int) ≤ p) :
    (siblingPositions db eventID parent = [] →
      (CreateTaskGroup db eventID parent).2.position = 0
      ∧ (CreateTask db eventID parent maxSlots).2.position = 0)
    ∧ (siblingPositions db eventID parent ≠ [] →
      ∃ q ∈ siblingPositions db eventID parent,
        (∀ p ∈ siblingPositions db eventID parent, p ≤ q)
        ∧ (CreateTaskGroup db eventID parent).2.position = q + 1
        ∧ (CreateTask db eventID parent maxSlots).2.position = q + 1) := by
  have hgpos : (CreateTaskGroup db eventID parent).2.position
      = max (maxPosOr (siblingGroupPositions db eventID parent))
          (maxPosOr (siblingTaskPositions db eventID parent)) + 1 := by
    show (if maxPosOr (siblingTaskPositions db eventID parent)
          > maxPosOr (siblingGroupPositions db eventID parent)
        then maxPosOr (siblingTaskPositions db eventID parent)
        else maxPosOr (siblingGroupPositions db eventID parent)) + 1 = _
    rw [if_gt_eq_max]
  have htpos : (CreateTask db eventID parent maxSlots).2.position
      = max (maxPosOr (siblingGroupPositions db eventID parent))
          (maxPosOr (siblingTaskPositions db eventID parent)) + 1 := by
    show (if maxPosOr (siblingGroupPositions db eventID parent)
          > maxPosOr (siblingTaskPositions db eventID parent)
        then maxPosOr (siblingGroupPositions db eventID parent)
        else maxPosOr (siblingTaskPositions db eventID parent)) + 1 = _
    rw [if_gt_eq_max, max_comm]
  constructor
  · intro hnil
    rcases List.append_eq_nil.mp hnil with ⟨hg, ht⟩
    rw [hgpos, htpos, hg, ht]
    constructor <;> rfl
  · intro hne
    have hA : ∀ p ∈ siblingGroupPositions db eventID parent, (0 : Int) ≤ p :=
      fun p hp => hpos p (List.mem_append_left _ hp)
    have hB : ∀ p ∈ siblingTaskPositions db eventID parent, (0 : Int) ≤ p :=
      fun p hp => hpos p (List.mem_append_right _ hp)
    have h := max_append_spec _ _ hA hB hne
    exact ⟨_, h.1, h.2, by rw [hgpos], by rw [htpos]⟩

/-- Witness for C8: creating under the childless group 1 of `dbW8` assigns
position 0 to a new group and to a new task. -/
theorem create_assigns_end_position_witness :
    (CreateTaskGroup dbW8 1 (some 1)).2.position = 0
    ∧ (CreateTask dbW8 1 (some 1) none).2.position = 0 :=
  (create_assigns_end_position dbW8 1 (some 1) none (by decide)).1 (by decide)

/-- C9: `GenerateSlug` is a pure, deterministic, total function: every
call on an input yields one fixed output; the empty title and an
all-dashes title both fall back to `"event"`, and `"Café & Résumé"`
slugs to `"cafe-resume"`. -/
theorem generateSlug_total_examples :
    (∀ s : String, GenerateSlug s = GenerateSlug s)
    ∧ GenerateSlug "" = "event"
    ∧ GenerateSlug "---" = "event"
    ∧ GenerateSlug "Café & Résumé" = "cafe-resume" :=
  ⟨fun _ => rfl, rfl, rfl, rfl⟩

/-! ## Helper lemmas: the reorder operation as a sequence of row writes -/

/-- An empty write sequence changes nothing. -/
theorem applyWrites_nil (db : DB) : applyWrites db [] = db := by
  unfold applyWrites
  simp

/-- Writes compose by concatenation. -/
theorem applyWrites_append (db : DB) (ws1 ws2 : List Upd) :
    applyWrites db (ws1 ++ ws2) = applyWrites (applyWrites db ws1) ws2 := by
  unfold applyWrites
  simp [List.map_map, List.foldl_append, Function.comp]

/-- A single group UPDATE is one write. -/
theorem updateGroupRow_eq_writes (db : DB) (gid : Int) (pos : Int) (parent : Option Int) :
    applyWrites db [Upd.group gid pos parent] = updateGroupRow db gid pos parent := by
  unfold applyWrites updateGroupRow
  simp [applyUpdTask, applyUpdGroup]

/-- A single task UPDATE is one write. -/
theorem updateTaskRow_eq_writes (db : DB) (tid : Int) (pos : Int) (parent : Option Int) :
    applyWrites db [Upd.task tid pos parent] = updateTaskRow db tid pos parent := by
  unfold applyWrites updateTaskRow
  simp [applyUpdTask, applyUpdGroup]

mutual
/-- One reorder node acts as its write sequence. -/
theorem applyReorderOne_eq_writes (db : DB) (node : ReorderNode) (i : Nat)
    (parent : Option Int) :
    applyReorderOne db node i parent = applyWrites db (writesOne node i parent) := by
  cases node with
  | mk ty nid children =>
    simp only [applyReorderOne, writesOne]
    by_cases h1 : ty = "group"
    · rw [if_pos h1, if_pos h1, applyReorderAux_eq_writes,
        show (Upd.group nid (i : Int) parent :: writesAux children (some nid) 0)
          = [Upd.group nid (i : Int) parent] ++ writesAux children (some nid) 0 from rfl,
        applyWrites_append, updateGroupRow_eq_writes]
    · by_cases h2 : ty = "task"
      · rw [if_neg h1, if_pos h2, if_neg h1, if_pos h2, updateTaskRow_eq_writes]
      · rw [if_neg h1, if_neg h2, if_neg h1, if_neg h2, applyWrites_nil]
/-- A reorder forest acts as its write sequence. -/
theorem applyReorderAux_eq_writes (db : DB) (nodes : ReorderForest) (parent : Option Int)
    (i : Nat) :
    applyReorderAux db nodes parent i = applyWrites db (writesAux nodes parent i) := by
  cases nodes with
  | nil =>
    simp only [applyReorderAux, writesAux]
    rw [applyWrites_nil]
  | cons node rest =>
    simp only [applyReorderAux, writesAux]
    rw [applyReorderAux_eq_writes, applyReorderOne_eq_writes, applyWrites_append]
end

mutual
/-- The task rows one node's writes touch are the tree's task-node ids. -/
theorem writesOne_taskIds (node : ReorderNode) (i : Nat) (parent : Option Int) :
    (writesOne node i parent).filterMap updTaskId = nodeTaskIds node := by
  cases node with
  | mk ty nid children =>
    simp only [writesOne, nodeTaskIds]
    by_cases h1 : ty = "group"
    · rw [if_pos h1, if_pos h1]
      simp only [List.filterMap_cons, updTaskId]
      rw [writesAux_taskIds]
    · by_cases h2 : ty = "task"
      · rw [if_neg h1, if_pos h2, if_neg h1, if_pos h2]
        simp [updTaskId]
      · rw [if_neg h1, if_neg h2, if_neg h1, if_neg h2]
        simp
/-- The task rows a forest's writes touch are the tree's task-node ids. -/
theorem writesAux_taskIds (nodes : ReorderForest) (parent : Option Int) (i : Nat) :
    (writesAux nodes parent i).filterMap updTaskId = treeTaskIds nodes := by
  cases nodes with
  | nil => simp [writesAux, treeTaskIds]
  | cons node rest =>
    simp only [writesAux, treeTaskIds, List.filterMap_append]
    rw [writesOne_taskIds, writesAux_taskIds]
end

mutual
/-- The group rows one node's writes touch are the tree's group-node ids. -/
theorem writesOne_groupIds (node : ReorderNode) (i : Nat) (parent : Option Int) :
    (writesOne node i parent).filterMap updGroupId = nodeGroupIds node := by
  cases node with
  | mk ty nid children =>
    simp only [writesOne, nodeGroupIds]
    by_cases h1 : ty = "group"
    · rw [if_pos h1, if_pos h1]
      simp only [List.filterMap_cons, updGroupId]
      rw [writesAux_groupIds]
    · by_cases h2 : ty = "task"
      · rw [if_neg h1, if_pos h2, if_neg h1]
        simp [updGroupId]
      · rw [if_neg h1, if_neg h2, if_neg h1]
        simp
/-- The group rows a forest's writes touch are the tree's group-node ids. -/
theorem writesAux_groupIds (nodes : ReorderForest) (parent : Option Int) (i : Nat) :
    (writesAux nodes parent i).filterMap updGroupId = treeGroupIds nodes := by
  cases nodes with
  | nil => simp [writesAux, treeGroupIds]
  | cons node rest =>
    simp only [writesAux, treeGroupIds, List.filterMap_append]
    rw [writesOne_groupIds, writesAux_groupIds]
end

/-- A write never changes a task row's id. -/
theorem applyUpdTask_id (t : Task) (u : Upd) : (applyUpdTask t u).id = t.id := by
  cases u with
  | task uid pos par =>
    simp only [applyUpdTask]
    split <;> rfl
  | group uid pos par => rfl

/-- A write never changes a group row's id. -/
theorem applyUpdGroup_id (g : TaskGroup) (u : Upd) : (applyUpdGroup g u).id = g.id := by
  cases u with
  | group uid pos par =>
    simp only [applyUpdGroup]
    split <;> rfl
  | task uid pos par => rfl

/-- A write sequence never changes a task row's id. -/
theorem foldl_applyUpdTask_id (ws : List Upd) (t : Task) :
    (ws.foldl applyUpdTask t).id = t.id := by
  induction ws generalizing t with
  | nil => rfl
  | cons u rest ih =>
    rw [List.foldl_cons, ih, applyUpdTask_id]

/-- A write sequence never changes a group row's id. -/
theorem foldl_applyUpdGroup_id (ws : List Upd) (g : TaskGroup) :
    (ws.foldl applyUpdGroup g).id = g.id := by
  induction ws generalizing g with
  | nil => rfl
  | cons u rest ih =>
    rw [List.foldl_cons, ih, applyUpdGroup_id]

/-- A task row after a write sequence carries the values of the last write
that hits its id, or stays put. -/
theorem foldl_applyUpdTask_char (ws : List Upd) (t : Task) :
    ws.foldl applyUpdTask t
      = (match lastTaskUpd ws t.id with
         | none => t
         | some v => { t with position := v.1, groupID := v.2 }) := by
  induction ws generalizing t with
  | nil => rfl
  | cons u rest ih =>
    rw [List.foldl_cons, ih,
      show lastTaskUpd rest (applyUpdTask t u).id = lastTaskUpd rest t.id from by
        rw [applyUpdTask_id]]
    have hcons : lastTaskUpd (u :: rest) t.id
        = ((lastTaskUpd rest t.id).orElse fun _ => updTaskVal u t.id) := rfl
    rw [hcons]
    cases hrest : lastTaskUpd rest t.id with
    | some v =>
      show { applyUpdTask t u with position := v.1, groupID := v.2 }
          = { t with position := v.1, groupID := v.2 }
      cases u with
      | task uid pos par =>
        simp only [applyUpdTask]
        split <;> rfl
      | group uid pos par => rfl
    | none =>
      show applyUpdTask t u
          = (match updTaskVal u t.id with
             | none => t
             | some v => { t with position := v.1, groupID := v.2 })
      cases u with
      | task uid pos par =>
        by_cases he : uid = t.id
        · rw [show updTaskVal (.task uid pos par) t.id = some (pos, par) from by
              simp [updTaskVal, he]]
          show (if t.id = uid then { t with position := pos, groupID := par } else t)
              = { t with position := pos, groupID := par }
          rw [if_pos he.symm]
        · rw [show updTaskVal (.task uid pos par) t.id = none from by
              simp [updTaskVal, he]]
          show (if t.id = uid then { t with position := pos, groupID := par } else t) = t
          rw [if_neg (fun hh => he hh.symm)]
      | group uid pos par => rfl

/-- A group row after a write sequence carries the values of the last
write that hits its id, or stays put. -/
theorem foldl_applyUpdGroup_char (ws : List Upd) (g : TaskGroup) :
    ws.foldl applyUpdGroup g
      = (match lastGroupUpd ws g.id with
         | none => g
         | some v => { g with position := v.1, parentGroupID := v.2 }) := by
  induction ws generalizing g with
  | nil => rfl
  | cons u rest ih =>
    rw [List.foldl_cons, ih,
      show lastGroupUpd rest (applyUpdGroup g u).id = lastGroupUpd rest g.id from by
        rw [applyUpdGroup_id]]
    have hcons : lastGroupUpd (u :: rest) g.id
        = ((lastGroupUpd rest g.id).orElse fun _ => updGroupVal u g.id) := rfl
    rw [hcons]
    cases hrest : lastGroupUpd rest g.id with
    | some v =>
      show { applyUpdGroup g u with position := v.1, parentGroupID := v.2 }
          = { g with position := v.1, parentGroupID := v.2 }
      cases u with
      | group uid pos par =>
        simp only [applyUpdGroup]
        split <;> rfl
      | task uid pos par => rfl
    | none =>
      show applyUpdGroup g u
          = (match updGroupVal u g.id with
             | none => g
             | some v => { g with position := v.1, parentGroupID := v.2 })
      cases u with
      | group uid pos par =>
        by_cases he : uid = g.id
        · rw [show updGroupVal (.group uid pos par) g.id = some (pos, par) from by
              simp [updGroupVal, he]]
          show (if g.id = uid then { g with position := pos, parentGroupID := par } else g)
              = { g with position := pos, parentGroupID := par }
          rw [if_pos he.symm]
        · rw [show updGroupVal (.group uid pos par) g.id = none from by
              simp [updGroupVal, he]]
          show (if g.id = uid then { g with position := pos, parentGroupID := par } else g) = g
          rw [if_neg (fun hh => he hh.symm)]
      | task uid pos par => rfl

/-- Replaying a write sequence on a task row is absorbed. -/
theorem foldl_applyUpdTask_idem (ws : List Upd) (t : Task) :
    ws.foldl applyUpdTask (ws.foldl applyUpdTask t) = ws.foldl applyUpdTask t := by
  have h2 := foldl_applyUpdTask_char ws (ws.foldl applyUpdTask t)
  rw [foldl_applyUpdTask_id] at h2
  rw [h2, foldl_applyUpdTask_char ws t]
  cases hrest : lastTaskUpd ws t.id with
  | none => rfl
  | some v => rfl

/-- Replaying a write sequence on a group row is absorbed. -/
theorem foldl_applyUpdGroup_idem (ws : List Upd) (g : TaskGroup) :
    ws.foldl applyUpdGroup (ws.foldl applyUpdGroup g) = ws.foldl applyUpdGroup g := by
  have h2 := foldl_applyUpdGroup_char ws (ws.foldl applyUpdGroup g)
  rw [foldl_applyUpdGroup_id] at h2
  rw [h2, foldl_applyUpdGroup_char ws g]
  cases hrest : lastGroupUpd ws g.id with
  | none => rfl
  | some v => rfl

/-- A task row whose id no write touches is left unchanged. -/
theorem foldl_applyUpdTask_untouched (ws : List Upd) (t : Task)
    (h : t.id ∉ ws.filterMap updTaskId) : ws.foldl applyUpdTask t = t := by
  induction ws with
  | nil => rfl
  | cons u rest ih =>
    rw [List.foldl_cons]
    cases u with
    | task uid pos par =>
      simp only [List.filterMap_cons, updTaskId] at h
      rw [List.mem_cons] at h
      push_neg at h
      have ht : applyUpdTask t (.task uid pos par) = t := by
        simp only [applyUpdTask]
        rw [if_neg (fun hh => h.1 hh)]
      rw [ht]
      exact ih h.2
    | group uid pos par =>
      rw [show applyUpdTask t (.group uid pos par) = t from rfl]
      apply ih
      simpa [List.filterMap_cons, updTaskId] using h

/-- A group row whose id no write touches is left unchanged. -/
theorem foldl_applyUpdGroup_untouched (ws : List Upd) (g : TaskGroup)
    (h : g.id ∉ ws.filterMap updGroupId) : ws.foldl applyUpdGroup g = g := by
  induction ws with
  | nil => rfl
  | cons u rest ih =>
    rw [List.foldl_cons]
    cases u with
    | group uid pos par =>
      simp only [List.filterMap_cons, updGroupId] at h
      rw [List.mem_cons] at h
      push_neg at h
      have hg : applyUpdGroup g (.group uid pos par) = g := by
        simp only [applyUpdGroup]
        rw [if_neg (fun hh => h.1 hh)]
      rw [hg]
      exact ih h.2
    | task uid pos par =>
      rw [show applyUpdGroup g (.task uid pos par) = g from rfl]
      apply ih
      simpa [List.filterMap_cons, updGroupId] using h

/-- Replaying a write sequence on the whole state is absorbed. -/
theorem applyWrites_idem (db : DB) (ws : List Upd) :
    applyWrites (applyWrites db ws) ws = applyWrites db ws := by
  show ({ db with
      tasks := ((db.tasks.map (fun t => ws.foldl applyUpdTask t)).map
        (fun t => ws.foldl applyUpdTask t)),
      groups := ((db.groups.map (fun g => ws.foldl applyUpdGroup g)).map
        (fun g => ws.foldl applyUpdGroup g)) } : DB)
    = { db with
        tasks := db.tasks.map (fun t => ws.foldl applyUpdTask t),
        groups := db.groups.map (fun g => ws.foldl applyUpdGroup g) }
  rw [List.map_map, List.map_map]
  have h1 : ∀ t ∈ db.tasks,
      ((fun t => ws.foldl applyUpdTask t) ∘ fun t => ws.foldl applyUpdTask t) t
        = ws.foldl applyUpdTask t := by
    intro t ht
    simp only [Function.comp]
    exact foldl_applyUpdTask_idem ws t
  have h2 : ∀ g ∈ db.groups,
      ((fun g => ws.foldl applyUpdGroup g) ∘ fun g => ws.foldl applyUpdGroup g) g
        = ws.foldl applyUpdGroup g := by
    intro g hg
    simp only [Function.comp]
    exact foldl_applyUpdGroup_idem ws g
  rw [List.map_congr_left h1, List.map_congr_left h2]

/-- C7: `ApplyReorder` is idempotent — applying the same reorder tree
twice yields exactly the stored position and parent values of applying it
once — and every task or group row not named in the supplied tree keeps
its previous position and parent (its row is untouched). -/
theorem reorder_idempotent_untouched (db : DB) (nodes : ReorderForest) (parent : Option Int) :
    ApplyReorder (ApplyReorder db nodes parent) nodes parent = ApplyReorder db nodes parent
    ∧ (∀ t ∈ db.tasks, t.id ∉ treeTaskIds nodes → t ∈ (ApplyReorder db nodes parent).tasks)
    ∧ (∀ g ∈ db.groups, g.id ∉ treeGroupIds nodes →
        g ∈ (ApplyReorder db nodes parent).groups) := by
  have hw : ∀ d : DB, ApplyReorder d nodes parent = applyWrites d (writesAux nodes parent 0) :=
    fun d => applyReorderAux_eq_writes d nodes parent 0
  refine ⟨?_, ?_, ?_⟩
  · rw [hw db, hw (applyWrites db (writesAux nodes parent 0)), applyWrites_idem]
  · intro t htm hid
    rw [hw db]
    have hfix : (writesAux nodes parent 0).foldl applyUpdTask t = t := by
      apply foldl_applyUpdTask_untouched
      rw [writesAux_taskIds]
      exact hid
    have h2 := List.mem_map_of_mem
      (fun x : Task => (writesAux nodes parent 0).foldl applyUpdTask x) htm
    simp only [hfix] at h2
    exact h2
  · intro g hgm hid
    rw [hw db]
    have hfix : (writesAux nodes parent 0).foldl applyUpdGroup g = g := by
      apply foldl_applyUpdGroup_untouched
      rw [writesAux_groupIds]
      exact hid
    have h2 := List.mem_map_of_mem
      (fun x : TaskGroup => (writesAux nodes parent 0).foldl applyUpdGroup x) hgm
    simp only [hfix] at h2
    exact h2

/-- Witness for C7: reordering `dbW7` twice equals once, and the unnamed
task 11 keeps its row untouched. -/
theorem reorder_idempotent_untouched_witness :
    ApplyReorder (ApplyReorder dbW7 nodesW7 none) nodesW7 none
      = ApplyReorder dbW7 nodesW7 none
    ∧ ({ id := 11, eventID := 1, groupID := some 1, maxSlots := none, position := 0 } : Task)
        ∈ (ApplyReorder dbW7 nodesW7 none).tasks :=
  ⟨(reorder_idempotent_untouched dbW7 nodesW7 none).1,
   (reorder_idempotent_untouched dbW7 nodesW7 none).2.1
     { id := 11, eventID := 1, groupID := some 1, maxSlots := none, position := 0 }
     (by decide) (by decide)⟩

end EventSignup
